import Mathlib

/-!
Verification of the xrono duration core: a shallow embedding of
src/src/duration.rs and src/src/units.rs, followed by theorems about the
embedded operations. The Rust integer type TimeInt is u64; it is modelled
as Nat with an explicit reduction modulo 2^64 at every arithmetic step the
Rust code performs, so that wraparound behaviour is captured exactly.
-/

/-- The u64 modulus, 2^64. -/
def U64MOD : Nat := 18446744073709551616

/-- Wrapping u64 addition. -/
def add64 (a b : Nat) : Nat := (a + b) % U64MOD

/-- Wrapping u64 subtraction (for operands below 2^64). -/
def sub64 (a b : Nat) : Nat := (a % U64MOD + (U64MOD - b % U64MOD)) % U64MOD

/-- Wrapping u64 multiplication. -/
def mul64 (a b : Nat) : Nat := (a * b) % U64MOD

/-- Wrapping u64 negation, the value of the unary minus on an unsigned field. -/
def neg64 (a : Nat) : Nat := (U64MOD - a % U64MOD) % U64MOD

/-!
Modelled from the spec: the module crate::constants is referenced by
src/src/duration.rs via a glob import but its file is not part of the
source tree; the constant values are fixed by spec section 4.1
(week = 604800 s, day = 86400 s, hour = 3600 s, minute = 60 s; unit
counts per second 10^3, 10^6, 10^9, 10^12; picosecond scale factors
10^9, 10^6, 10^3).
-/

def SECS_PER_WEEK : Nat := 604800
def SECS_PER_DAY : Nat := 86400
def SECS_PER_HOUR : Nat := 3600
def SECS_PER_MINUTE : Nat := 60
def MILLIS_PER_SEC : Nat := 1000
def MICROS_PER_SEC : Nat := 1000000
def NANOS_PER_SEC : Nat := 1000000000
def PICOS_PER_SEC : Nat := 1000000000000
def PICOS_PER_MILLI : Nat := 1000000000
def PICOS_PER_MICRO : Nat := 1000000
def PICOS_PER_NANO : Nat := 1000

/-- The Duration value type of duration.rs: seconds plus sub-second
picoseconds, both u64 fields. -/
structure Duration where
  secs : Nat
  picos : Nat
deriving DecidableEq

/-- The tagged unit magnitudes of units.rs (enum PreciseTime). -/
inductive PreciseTime where
  | Picoseconds (n : Nat)
  | Nanoseconds (n : Nat)
  | Microseconds (n : Nat)
  | Milliseconds (n : Nat)
  | Seconds (n : Nat)
  | Minutes (n : Nat)
  | Hours (n : Nat)
  | Days (n : Nat)
  | Weeks (n : Nat)
deriving DecidableEq

/-- The host clock-duration pair of std::time::Duration: whole seconds and
sub-second nanoseconds (the host type keeps nanos below 10^9). -/
structure ClockDuration where
  secs : Nat
  nanos : Nat
deriving DecidableEq

namespace Duration

/-- duration.rs from_weeks: n * SECS_PER_WEEK seconds, zero picoseconds. -/
def from_weeks (n : Nat) : Duration :=
  { secs := mul64 n SECS_PER_WEEK, picos := 0 }

/-- duration.rs from_days. -/
def from_days (n : Nat) : Duration :=
  { secs := mul64 n SECS_PER_DAY, picos := 0 }

/-- duration.rs from_hours. -/
def from_hours (n : Nat) : Duration :=
  { secs := mul64 n SECS_PER_HOUR, picos := 0 }

/-- duration.rs from_minutes. -/
def from_minutes (n : Nat) : Duration :=
  { secs := mul64 n SECS_PER_MINUTE, picos := 0 }

/-- duration.rs from_secs: stores n directly with zero picoseconds. -/
def from_secs (n : Nat) : Duration :=
  { secs := n, picos := 0 }

/-- duration.rs from_millis: u64 division and remainder scaling. -/
def from_millis (n : Nat) : Duration :=
  { secs := n / MILLIS_PER_SEC, picos := mul64 (n % MILLIS_PER_SEC) PICOS_PER_MILLI }

/-- duration.rs from_micros. -/
def from_micros (n : Nat) : Duration :=
  { secs := n / MICROS_PER_SEC, picos := mul64 (n % MICROS_PER_SEC) PICOS_PER_MICRO }

/-- duration.rs from_nanos. -/
def from_nanos (n : Nat) : Duration :=
  { secs := n / NANOS_PER_SEC, picos := mul64 (n % NANOS_PER_SEC) PICOS_PER_NANO }

/-- duration.rs from_picos. -/
def from_picos (n : Nat) : Duration :=
  { secs := n / PICOS_PER_SEC, picos := n % PICOS_PER_SEC }

/-- duration.rs as_weeks: floor division of the seconds field. -/
def as_weeks (d : Duration) : Nat := d.secs / SECS_PER_WEEK

/-- duration.rs as_days. -/
def as_days (d : Duration) : Nat := d.secs / SECS_PER_DAY

/-- duration.rs as_hours. -/
def as_hours (d : Duration) : Nat := d.secs / SECS_PER_HOUR

/-- duration.rs as_minutes. -/
def as_minutes (d : Duration) : Nat := d.secs / SECS_PER_MINUTE

/-- duration.rs as_secs: returns the seconds field unchanged. -/
def as_secs (d : Duration) : Nat := d.secs

/-- duration.rs as_millis: (secs * MILLIS_PER_SEC) + (picos / PICOS_PER_MILLI)
in u64 arithmetic. -/
def as_millis (d : Duration) : Nat :=
  add64 (mul64 d.secs MILLIS_PER_SEC) (d.picos / PICOS_PER_MILLI)

/-- duration.rs as_micros. -/
def as_micros (d : Duration) : Nat :=
  add64 (mul64 d.secs MICROS_PER_SEC) (d.picos / PICOS_PER_MICRO)

/-- duration.rs as_nanos. -/
def as_nanos (d : Duration) : Nat :=
  add64 (mul64 d.secs NANOS_PER_SEC) (d.picos / PICOS_PER_NANO)

/-- duration.rs as_picos: secs * PICOS_PER_SEC + picos in u64 arithmetic. -/
def as_picos (d : Duration) : Nat :=
  add64 (mul64 d.secs PICOS_PER_SEC) d.picos

end Duration

/-- Rust Ord::cmp on an unsigned integer: Less, Equal or Greater. -/
def natCmp (a b : Nat) : Ordering :=
  if a < b then Ordering.lt else if a = b then Ordering.eq else Ordering.gt

namespace Duration

/-- duration.rs Ord for Duration: compare secs, then picos (Ordering::then). -/
def cmp (a b : Duration) : Ordering :=
  (natCmp a.secs b.secs).then (natCmp a.picos b.picos)

/-- Strict order induced by cmp, the order of the Ord impl. -/
def lt (a b : Duration) : Prop := cmp a b = Ordering.lt

instance (a b : Duration) : Decidable (lt a b) := by
  unfold lt; infer_instance

end Duration

/-- duration.rs calc_picos_secs: splits a raw picosecond count into a
normalized remainder below PICOS_PER_SEC and a seconds carry (the u64
absolute value is the identity, and the malformed comparison token in the
source reads as greater-or-equal). Returns (remainder, carry). -/
def calc_picos_secs (picos : Nat) : Nat × Nat :=
  if picos ≥ PICOS_PER_SEC then (picos % PICOS_PER_SEC, picos / PICOS_PER_SEC)
  else (picos, 0)

namespace Duration

/-- duration.rs Add for Duration: add picos, normalize, add secs plus carry,
all in u64 arithmetic. -/
def add (a b : Duration) : Duration :=
  let picos := add64 a.picos b.picos
  let pc := calc_picos_secs picos
  { secs := add64 (add64 a.secs b.secs) pc.2, picos := pc.1 }

/-- duration.rs Sub for Duration: subtract picos, normalize, subtract secs
and carry, all in wrapping u64 arithmetic (the source has no error path). -/
def sub (a b : Duration) : Duration :=
  let picos := sub64 a.picos b.picos
  let pc := calc_picos_secs picos
  { secs := sub64 (sub64 a.secs b.secs) pc.2, picos := pc.1 }

/-- duration.rs Mul for Duration by an integer scale, u64 arithmetic. -/
def mul (a : Duration) (scale : Nat) : Duration :=
  let picos := mul64 a.picos scale
  let secs := mul64 a.secs scale
  let pc := calc_picos_secs picos
  { secs := add64 secs pc.2, picos := pc.1 }

/-- duration.rs Neg for Duration: unary minus on both unsigned fields,
which is wrapping negation modulo 2^64. -/
def neg (a : Duration) : Duration :=
  { secs := neg64 a.secs, picos := neg64 a.picos }

/-- duration.rs From of PreciseTime: exhaustive dispatch to the nine unit
constructors. -/
def fromPreciseTime : PreciseTime → Duration
  | PreciseTime.Picoseconds n => from_picos n
  | PreciseTime.Nanoseconds n => from_nanos n
  | PreciseTime.Microseconds n => from_micros n
  | PreciseTime.Milliseconds n => from_millis n
  | PreciseTime.Seconds n => from_secs n
  | PreciseTime.Minutes n => from_minutes n
  | PreciseTime.Hours n => from_hours n
  | PreciseTime.Days n => from_days n
  | PreciseTime.Weeks n => from_weeks n

/-- duration.rs Add of a PreciseTime operand: convert then add. -/
def addPrecise (a : Duration) (t : PreciseTime) : Duration :=
  add a (fromPreciseTime t)

/-- duration.rs Sub of a PreciseTime operand: convert then subtract. -/
def subPrecise (a : Duration) (t : PreciseTime) : Duration :=
  sub a (fromPreciseTime t)

/-- duration.rs From of std::time::Duration: copy the seconds, upscale the
sub-second nanoseconds to picoseconds. -/
def fromClock (c : ClockDuration) : Duration :=
  { secs := c.secs, picos := mul64 c.nanos PICOS_PER_NANO }

/-- Modelled from the spec: the export half of the clock-duration interop
(spec section 6) is not present in the source tree; the spec defines it as
pair.seconds = Duration.seconds and pair.subsecond_nanoseconds =
Duration.subsecond_picoseconds div 1000 (floor to nanosecond resolution). -/
def toClock (d : Duration) : ClockDuration :=
  { secs := d.secs, nanos := d.picos / PICOS_PER_NANO }

/-- Invariant I1 of the spec: the sub-second field is a canonical
picosecond count. -/
def I1 (d : Duration) : Prop := d.picos < PICOS_PER_SEC

instance (d : Duration) : Decidable (I1 d) := by unfold I1; infer_instance

/-- The exact total picosecond value a Duration denotes; the abstraction
used to compare results of u64 computations with exact arithmetic. -/
def toVal (d : Duration) : Nat := d.secs * PICOS_PER_SEC + d.picos

end Duration

/-- The Duration values observable from the public surface of duration.rs:
built by one of the nine unit constructors on a u64 magnitude, imported
from a host clock duration (whose nanosecond field the host keeps below
10^9), or produced by the arithmetic operators from observable values. -/
inductive Reachable : Duration → Prop where
  | weeks (n : Nat) (h : n < U64MOD) : Reachable (Duration.from_weeks n)
  | days (n : Nat) (h : n < U64MOD) : Reachable (Duration.from_days n)
  | hours (n : Nat) (h : n < U64MOD) : Reachable (Duration.from_hours n)
  | minutes (n : Nat) (h : n < U64MOD) : Reachable (Duration.from_minutes n)
  | secs (n : Nat) (h : n < U64MOD) : Reachable (Duration.from_secs n)
  | millis (n : Nat) (h : n < U64MOD) : Reachable (Duration.from_millis n)
  | micros (n : Nat) (h : n < U64MOD) : Reachable (Duration.from_micros n)
  | nanos (n : Nat) (h : n < U64MOD) : Reachable (Duration.from_nanos n)
  | picos (n : Nat) (h : n < U64MOD) : Reachable (Duration.from_picos n)
  | clock (c : ClockDuration) (hs : c.secs < U64MOD) (hn : c.nanos < NANOS_PER_SEC) :
      Reachable (Duration.fromClock c)
  | add (a b : Duration) : Reachable a → Reachable b → Reachable (Duration.add a b)
  | sub (a b : Duration) : Reachable a → Reachable b → Reachable (Duration.sub a b)
  | mul (a : Duration) (k : Nat) (hk : k < U64MOD) : Reachable a → Reachable (Duration.mul a k)

/-!  Helper lemmas about the embedded operations.  -/

/-- Both branches of the normalization helper return a remainder below one
second of picoseconds. -/
lemma calc_picos_secs_fst_lt (p : Nat) : (calc_picos_secs p).1 < PICOS_PER_SEC := by
  unfold calc_picos_secs PICOS_PER_SEC
  split <;> omega

/-- On canonical inputs whose seconds sum stays inside u64, addition reduces
to exact carry arithmetic. -/
lemma Duration.add_eq (a b : Duration) (ha : a.picos < PICOS_PER_SEC)
    (hb : b.picos < PICOS_PER_SEC) (h : a.secs + b.secs + 1 < U64MOD) :
    Duration.add a b =
      { secs := a.secs + b.secs + (a.picos + b.picos) / PICOS_PER_SEC,
        picos := (a.picos + b.picos) % PICOS_PER_SEC } := by
  unfold Duration.add add64 calc_picos_secs PICOS_PER_SEC U64MOD at *
  rw [Duration.mk.injEq]
  split <;> constructor <;> omega

/-- Exact addition on the picosecond abstraction, inside the u64 range. -/
lemma Duration.add_toVal (a b : Duration) (ha : a.picos < PICOS_PER_SEC)
    (hb : b.picos < PICOS_PER_SEC) (h : a.secs + b.secs + 1 < U64MOD) :
    Duration.toVal (Duration.add a b) = Duration.toVal a + Duration.toVal b := by
  rw [Duration.add_eq a b ha hb h]
  unfold Duration.toVal PICOS_PER_SEC at *
  simp only
  omega

/-- Addition always re-establishes the canonical picosecond bound. -/
lemma Duration.add_I1 (a b : Duration) : ((Duration.add a b)).picos < PICOS_PER_SEC := by
  unfold Duration.add
  exact calc_picos_secs_fst_lt _

/-- Subtraction always re-establishes the canonical picosecond bound. -/
lemma Duration.sub_I1 (a b : Duration) : ((Duration.sub a b)).picos < PICOS_PER_SEC := by
  unfold Duration.sub
  exact calc_picos_secs_fst_lt _

/-- Multiplication always re-establishes the canonical picosecond bound. -/
lemma Duration.mul_I1 (a : Duration) (k : Nat) :
    ((Duration.mul a k)).picos < PICOS_PER_SEC := by
  unfold Duration.mul
  exact calc_picos_secs_fst_lt _

/-- The order of the Ord impl agrees with the picosecond abstraction on
canonical values. -/
lemma Duration.lt_iff_toVal (a b : Duration) (ha : a.picos < PICOS_PER_SEC)
    (hb : b.picos < PICOS_PER_SEC) :
    Duration.lt a b ↔ Duration.toVal a < Duration.toVal b := by
  unfold Duration.lt Duration.cmp natCmp Duration.toVal PICOS_PER_SEC at *
  split_ifs with h1 h2 h3 <;> simp only [Ordering.then] <;>
    constructor <;> intro hx <;> first
      | omega
      | (exfalso; revert hx; simp; omega)
      | simp_all

/-- Inside the u64 range, scalar multiplication reduces to exact carry
arithmetic. -/
lemma Duration.mul_eq (a : Duration) (k : Nat)
    (hP : a.picos * k < U64MOD)
    (hS : a.secs * k + a.picos * k / PICOS_PER_SEC < U64MOD) :
    Duration.mul a k =
      { secs := a.secs * k + a.picos * k / PICOS_PER_SEC,
        picos := a.picos * k % PICOS_PER_SEC } := by
  unfold Duration.mul mul64 add64 calc_picos_secs PICOS_PER_SEC U64MOD at *
  rw [Duration.mk.injEq]
  generalize a.picos * k = P at *
  generalize a.secs * k = S at *
  split <;> constructor <;> omega

/-- Exact scalar multiplication on the picosecond abstraction, inside the
u64 range. -/
lemma Duration.mul_toVal (a : Duration) (k : Nat)
    (h : Duration.toVal a * k < U64MOD) :
    Duration.toVal (Duration.mul a k) = Duration.toVal a * k := by
  have hval : Duration.toVal a * k = a.secs * k * PICOS_PER_SEC + a.picos * k := by
    unfold Duration.toVal; ring
  rw [hval] at h ⊢
  clear hval
  unfold Duration.toVal Duration.mul mul64 add64 calc_picos_secs
  simp only
  generalize a.picos * k = P at *
  generalize a.secs * k = S at *
  unfold PICOS_PER_SEC U64MOD at *
  split <;> omega

/-!  Claim theorems.  -/

/-- C10: the seconds constructor stores the magnitude unchanged with zero
picoseconds and the seconds accessor returns the stored field exactly, so
the seconds round trip is lossless for every u64 magnitude. -/
theorem C10_secs_roundtrip (n : Nat) (_h : n < U64MOD) :
    Duration.as_secs (Duration.from_secs n) = n ∧
    Duration.from_secs n = { secs := n, picos := 0 } :=
  ⟨rfl, rfl⟩

theorem C10_witness :
    Duration.as_secs (Duration.from_secs 12345) = 12345 ∧
    Duration.from_secs 12345 = { secs := 12345, picos := 0 } :=
  C10_secs_roundtrip 12345 (by decide)

/-- C8: the picosecond round trip is exact for every representable u64
magnitude: from_picos followed by as_picos is the identity. -/
theorem C8_picos_roundtrip (n : Nat) (h : n < U64MOD) :
    Duration.as_picos (Duration.from_picos n) = n := by
  unfold Duration.as_picos Duration.from_picos mul64 add64 PICOS_PER_SEC U64MOD at *
  simp only
  omega

theorem C8_witness :
    Duration.as_picos (Duration.from_picos 123456789012345) = 123456789012345 :=
  C8_picos_roundtrip 123456789012345 (by decide)

/-- C6: importing a clock-duration pair copies the seconds and upscales the
sub-second nanoseconds by 1000 exactly; exporting floors back to
nanoseconds; for every pair with nanos below 10^9 the round trip is the
identity. -/
theorem C6_clock_roundtrip (s x : Nat) (_hs : s < U64MOD) (hx : x < NANOS_PER_SEC) :
    Duration.fromClock { secs := s, nanos := x } =
      { secs := s, picos := x * PICOS_PER_NANO } ∧
    Duration.toClock (Duration.fromClock { secs := s, nanos := x }) =
      { secs := s, nanos := x } := by
  unfold Duration.fromClock Duration.toClock mul64
  unfold NANOS_PER_SEC PICOS_PER_NANO U64MOD at *
  rw [Duration.mk.injEq, ClockDuration.mk.injEq]
  refine ⟨⟨rfl, ?_⟩, rfl, ?_⟩ <;> simp only <;> omega

theorem C6_witness :
    Duration.toClock (Duration.fromClock { secs := 3, nanos := 123456789 }) =
      { secs := 3, nanos := 123456789 } :=
  (C6_clock_roundtrip 3 123456789 (by decide) (by decide)).2

/-- C3: invariant I1 — every Duration observable after any of the nine unit
constructors, the clock-duration import, or the arithmetic operations
addition, subtraction and scalar multiplication has its sub-second
picosecond field below 10^12. -/
theorem C3_picos_invariant (d : Duration) (h : Reachable d) : Duration.I1 d := by
  have hzero : (0:Nat) < PICOS_PER_SEC := by norm_num [PICOS_PER_SEC]
  induction h with
  | weeks n h => exact hzero
  | days n h => exact hzero
  | hours n h => exact hzero
  | minutes n h => exact hzero
  | secs n h => exact hzero
  | millis n h =>
      have hb : n % MILLIS_PER_SEC * PICOS_PER_MILLI ≤ 999 * PICOS_PER_MILLI :=
        Nat.mul_le_mul_right PICOS_PER_MILLI (by unfold MILLIS_PER_SEC; omega)
      have hm := Nat.mod_le (n % MILLIS_PER_SEC * PICOS_PER_MILLI) U64MOD
      show n % MILLIS_PER_SEC * PICOS_PER_MILLI % U64MOD < PICOS_PER_SEC
      unfold PICOS_PER_MILLI PICOS_PER_SEC at *
      omega
  | micros n h =>
      have hb : n % MICROS_PER_SEC * PICOS_PER_MICRO ≤ 999999 * PICOS_PER_MICRO :=
        Nat.mul_le_mul_right PICOS_PER_MICRO (by unfold MICROS_PER_SEC; omega)
      have hm := Nat.mod_le (n % MICROS_PER_SEC * PICOS_PER_MICRO) U64MOD
      show n % MICROS_PER_SEC * PICOS_PER_MICRO % U64MOD < PICOS_PER_SEC
      unfold PICOS_PER_MICRO PICOS_PER_SEC at *
      omega
  | nanos n h =>
      have hb : n % NANOS_PER_SEC * PICOS_PER_NANO ≤ 999999999 * PICOS_PER_NANO :=
        Nat.mul_le_mul_right PICOS_PER_NANO (by unfold NANOS_PER_SEC; omega)
      have hm := Nat.mod_le (n % NANOS_PER_SEC * PICOS_PER_NANO) U64MOD
      show n % NANOS_PER_SEC * PICOS_PER_NANO % U64MOD < PICOS_PER_SEC
      unfold PICOS_PER_NANO PICOS_PER_SEC at *
      omega
  | picos n h =>
      show n % PICOS_PER_SEC < PICOS_PER_SEC
      exact Nat.mod_lt n hzero
  | clock c hs hn =>
      have hb : c.nanos * PICOS_PER_NANO ≤ 999999999 * PICOS_PER_NANO :=
        Nat.mul_le_mul_right PICOS_PER_NANO (by unfold NANOS_PER_SEC at hn; omega)
      have hm := Nat.mod_le (c.nanos * PICOS_PER_NANO) U64MOD
      show c.nanos * PICOS_PER_NANO % U64MOD < PICOS_PER_SEC
      unfold PICOS_PER_NANO PICOS_PER_SEC at *
      omega
  | add a b ha hb iha ihb => exact Duration.add_I1 a b
  | sub a b ha hb iha ihb => exact Duration.sub_I1 a b
  | mul a k hk ha iha => exact Duration.mul_I1 a k

theorem C3_witness : Duration.I1 (Duration.from_millis 1500) :=
  C3_picos_invariant (Duration.from_millis 1500) (Reachable.millis 1500 (by decide))

/-- C1 counterexample: the subtraction of the source has no error path at
all; from_secs 1 minus from_secs 2 produces the wrapped unsigned value with
seconds field 2^64 - 1 instead of signaling Underflow. -/
theorem C1_counterexample :
    Duration.sub (Duration.from_secs 1) (Duration.from_secs 2) =
      { secs := U64MOD - 1, picos := 0 } := by
  decide

/-- C1 amended: whenever the minuend has the smaller seconds magnitude, the
subtraction of whole-second durations wraps the unsigned seconds field
modulo 2^64 and returns that wrapped value; no Underflow error is
signaled because the operation has no failure outcome. -/
theorem C1_sub_wraps_on_underflow (x y : Nat) (hxy : x < y) (hy : y < U64MOD) :
    Duration.sub (Duration.from_secs x) (Duration.from_secs y) =
      { secs := U64MOD - (y - x), picos := 0 } := by
  have h1 : sub64 0 0 = 0 := by unfold sub64 U64MOD; norm_num
  have h2 : calc_picos_secs 0 = (0, 0) := by unfold calc_picos_secs PICOS_PER_SEC; norm_num
  have h3 : Duration.sub (Duration.from_secs x) (Duration.from_secs y) =
      { secs := sub64 (sub64 x y) 0, picos := 0 } := by
    unfold Duration.sub Duration.from_secs
    simp only [h1, h2]
  rw [h3, Duration.mk.injEq]
  unfold sub64 U64MOD at *
  constructor <;> omega

theorem C1_witness :
    Duration.sub (Duration.from_secs 1) (Duration.from_secs 2) =
      { secs := U64MOD - (2 - 1), picos := 0 } :=
  C1_sub_wraps_on_underflow 1 2 (by decide) (by decide)

/-- C2 counterexample: addition and scalar multiplication of the source
have no failure outcome; at the top of the u64 range both wrap silently,
so the produced value does not denote the exact sum. -/
theorem C2_counterexample :
    Duration.add (Duration.from_secs (U64MOD - 1)) (Duration.from_secs 1) =
      Duration.from_secs 0 ∧
    Duration.mul (Duration.from_secs (U64MOD - 1)) 2 =
      Duration.from_secs (U64MOD - 2) ∧
    Duration.toVal (Duration.add (Duration.from_secs (U64MOD - 1)) (Duration.from_secs 1)) ≠
      Duration.toVal (Duration.from_secs (U64MOD - 1)) +
        Duration.toVal (Duration.from_secs 1) := by
  refine ⟨by decide, by decide, by decide⟩

/-- C2 amended: addition and scalar multiplication are plain total
functions carrying no error kind; inside the 64-bit range they compute the
exact sum and the exact scaled product and re-establish invariant I1, and
beyond it the seconds field wraps modulo 2^64 silently. -/
theorem C2_add_mul_total_wrapping :
    (∀ a b : Duration, a.picos < PICOS_PER_SEC → b.picos < PICOS_PER_SEC →
        a.secs + b.secs + 1 < U64MOD →
        Duration.toVal (Duration.add a b) = Duration.toVal a + Duration.toVal b ∧
        Duration.I1 (Duration.add a b)) ∧
    (∀ (a : Duration) (k : Nat), Duration.toVal a * k < U64MOD →
        Duration.toVal (Duration.mul a k) = Duration.toVal a * k ∧
        Duration.I1 (Duration.mul a k)) := by
  constructor
  · intro a b ha hb h
    exact ⟨Duration.add_toVal a b ha hb h, Duration.add_I1 a b⟩
  · intro a k h
    exact ⟨Duration.mul_toVal a k h, Duration.mul_I1 a k⟩

theorem C2_witness :
    Duration.toVal (Duration.add (Duration.from_secs 5) (Duration.from_picos 999999999999)) =
      Duration.toVal (Duration.from_secs 5) +
        Duration.toVal (Duration.from_picos 999999999999) :=
  (C2_add_mul_total_wrapping.1 (Duration.from_secs 5) (Duration.from_picos 999999999999)
    (by decide) (by decide) (by decide)).1

/-- C4 counterexample: the source does expose a negation operation (the
Neg impl); negating the one-picosecond duration is not rejected but
returns a value, and that value breaks invariant I1. -/
theorem C4_counterexample :
    Duration.neg (Duration.from_picos 1) = { secs := 0, picos := U64MOD - 1 } ∧
    ¬ Duration.I1 (Duration.neg (Duration.from_picos 1)) := by
  refine ⟨by decide, by decide⟩

/-- C4 amended: the value type does expose a negation operation, which
negates both unsigned fields with wraparound modulo 2^64; on any canonical
duration with a nonzero sub-second field the result violates invariant
I1. -/
theorem C4_neg_breaks_invariant (d : Duration) (h1 : Duration.I1 d) (h2 : d.picos ≠ 0) :
    ¬ Duration.I1 (Duration.neg d) := by
  unfold Duration.I1 Duration.neg neg64 PICOS_PER_SEC U64MOD at *
  simp only at *
  omega

theorem C4_witness : ¬ Duration.I1 (Duration.neg (Duration.from_picos 1)) :=
  C4_neg_breaks_invariant (Duration.from_picos 1) (by decide) (by decide)

/-- C7 counterexample: at the top of the u64 seconds range the millisecond
accessor wraps modulo 2^64 and no longer equals
secs * unit_per_sec + picos div unit_scale. -/
theorem C7_counterexample :
    Duration.as_millis (Duration.from_secs (U64MOD - 1)) ≠
      (Duration.from_secs (U64MOD - 1)).secs * MILLIS_PER_SEC +
        (Duration.from_secs (U64MOD - 1)).picos / PICOS_PER_MILLI := by
  decide

/-- C7 amended: each fine accessor computes
secs * unit_per_sec + picos div unit_scale in wrapping u64 arithmetic;
the result equals that exact expression precisely when the expression
fits in 64 bits, and under the same proviso as_picos is exact and
lossless. -/
theorem C7_fine_accessors_exact (d : Duration) :
    (d.secs * MILLIS_PER_SEC + d.picos / PICOS_PER_MILLI < U64MOD →
      Duration.as_millis d = d.secs * MILLIS_PER_SEC + d.picos / PICOS_PER_MILLI) ∧
    (d.secs * MICROS_PER_SEC + d.picos / PICOS_PER_MICRO < U64MOD →
      Duration.as_micros d = d.secs * MICROS_PER_SEC + d.picos / PICOS_PER_MICRO) ∧
    (d.secs * NANOS_PER_SEC + d.picos / PICOS_PER_NANO < U64MOD →
      Duration.as_nanos d = d.secs * NANOS_PER_SEC + d.picos / PICOS_PER_NANO) ∧
    (d.secs * PICOS_PER_SEC + d.picos < U64MOD →
      Duration.as_picos d = d.secs * PICOS_PER_SEC + d.picos) := by
  unfold Duration.as_millis Duration.as_micros Duration.as_nanos Duration.as_picos
  unfold mul64 add64
  unfold MILLIS_PER_SEC MICROS_PER_SEC NANOS_PER_SEC PICOS_PER_SEC
  unfold PICOS_PER_MILLI PICOS_PER_MICRO PICOS_PER_NANO U64MOD
  refine ⟨?_, ?_, ?_, ?_⟩ <;> intro h <;> omega

theorem C7_witness :
    Duration.as_millis (Duration.from_millis 1500) =
      (Duration.from_millis 1500).secs * MILLIS_PER_SEC +
        (Duration.from_millis 1500).picos / PICOS_PER_MILLI :=
  (C7_fine_accessors_exact (Duration.from_millis 1500)).1 (by decide)

/-- C9: order preservation under addition — on canonical durations, if
a is below b in the order of the Ord impl and the additions stay inside
the u64 seconds range, then a + c is below b + c. -/
theorem C9_order_preservation (a b c : Duration)
    (ha : Duration.I1 a) (hb : Duration.I1 b) (hc : Duration.I1 c)
    (hab : Duration.lt a b) (hov : b.secs + c.secs + 1 < U64MOD) :
    Duration.lt (Duration.add a c) (Duration.add b c) := by
  have hva : Duration.toVal a < Duration.toVal b :=
    (Duration.lt_iff_toVal a b ha hb).1 hab
  have hsec : a.secs ≤ b.secs := by
    unfold Duration.toVal Duration.I1 PICOS_PER_SEC at *
    omega
  have hova : a.secs + c.secs + 1 < U64MOD := by omega
  rw [Duration.lt_iff_toVal (Duration.add a c) (Duration.add b c)
    (Duration.add_I1 a c) (Duration.add_I1 b c)]
  rw [Duration.add_toVal a c ha hc hova, Duration.add_toVal b c hb hc hov]
  omega

theorem C9_witness :
    Duration.lt (Duration.add (Duration.from_secs 1) (Duration.from_picos 7))
      (Duration.add (Duration.from_millis 1500) (Duration.from_picos 7)) :=
  C9_order_preservation (Duration.from_secs 1) (Duration.from_millis 1500)
    (Duration.from_picos 7) (by decide) (by decide) (by decide) (by decide) (by decide)
